import Mathlib

/-! Verification of the domain-classification pipeline.

A shallow embedding, in Lean 4, of the field-extraction and domain-classification
pipeline of the `domain_details` repository (`llm_client.py`, `extractors.py`,
`main.py`).

Embedding conventions:
* Python `str` values are modelled as `List Char` (one `Char` per Unicode code
  point, matching Python's `len` and indexing).
* Python `int` values are modelled as `Int`; indices that are known non-negative
  use `Nat`.
* Python exceptions are modelled as values: fallible code returns
  `Except PyErr _`.  `json.loads` failures (`json.JSONDecodeError`, a subclass of
  `ValueError`) are always caught by the source at every call site, so JSON
  decoding is modelled as `Option JVal`; the uncaught `AttributeError` raised by
  calling `.strip()` on a non-string is modelled as `Except.error`.
* The language-model gateway (`_call` inside `identify_domain`, i.e.
  `ask_ollama` / `ask_openai_api`) performs network I/O; it is a collaborator.
  `identify_domain` makes at most two gateway calls, so its response handling is
  embedded as a function of the (at most) two raw response strings.
* Python `while` loops whose termination is in question (`chunk_text`) are
  embedded with an explicit fuel parameter; `none` means the loop did not
  finish within the given fuel, for any fuel.
* JSON numbers are represented by their Python truthiness (zero / non-zero),
  the only attribute of a number the source ever consults.
-/

set_option autoImplicit false

namespace DomainDetails

/-! ## Python string primitives over `List Char` -/

/-- The characters stripped by Python's `str.strip()` with no arguments
(ASCII whitespace; the source never feeds exotic Unicode spaces to `strip`). -/
def isPySpace (c : Char) : Bool :=
  c = ' ' ∨ c = '\t' ∨ c = '\n' ∨ c = '\r' ∨ c = '\x0b' ∨ c = '\x0c'

/-- Python `s.strip()`. -/
def pyStrip (s : List Char) : List Char :=
  ((s.dropWhile isPySpace).reverse.dropWhile isPySpace).reverse

/-- Python `s.strip(chars)` for an explicit character set. -/
def pyStripSet (set : List Char) (s : List Char) : List Char :=
  ((s.dropWhile (· ∈ set)).reverse.dropWhile (· ∈ set)).reverse

/-- Python `s.lower()` (ASCII case mapping; the prefixes compared against are
all ASCII). -/
def lowerAscii (s : List Char) : List Char :=
  s.map Char.toLower

/-- Python `s.find(pat)`: index of the first occurrence of `pat`, or `-1`. -/
def findSub (s pat : List Char) : Int :=
  match (List.range (s.length + 1)).find? (fun i => pat.isPrefixOf (s.drop i)) with
  | some i => (i : Int)
  | none => -1

/-- Python `pat in s` (substring containment). -/
def hasSub (pat s : List Char) : Bool :=
  (List.range (s.length + 1)).any (fun i => pat.isPrefixOf (s.drop i))

/-- Auxiliary scan for `rfind`: largest `i ≤ n` at which `pat` occurs. -/
def rfindAux (s pat : List Char) : Nat → Int
  | 0 => if pat.isPrefixOf s then 0 else -1
  | n + 1 => if pat.isPrefixOf (s.drop (n + 1)) then ((n + 1 : Nat) : Int) else rfindAux s pat n

/-- Python `s.rfind(pat)`: index of the last occurrence of `pat`, or `-1`.
`rfind("") = len(s)`. -/
def rfind (s pat : List Char) : Int :=
  rfindAux s pat s.length

/-- Python `s.find(pat, start)`. -/
def findSubFrom (s pat : List Char) (start : Nat) : Int :=
  match (List.range (s.length + 1)).find?
      (fun i => decide (start ≤ i) && pat.isPrefixOf (s.drop i)) with
  | some i => (i : Int)
  | none => -1

/-- The part of `s` strictly before the first occurrence of `pat`
(`s.split(pat)[0]`; the whole of `s` when `pat` does not occur). -/
def beforeFirst (pat s : List Char) : List Char :=
  match findSub s pat with
  | .negSucc _ => s
  | .ofNat i => s.take i

/-- The part of `s` strictly after the first occurrence of `pat`
(`s.split(pat, 1)[-1]`; the whole of `s` when `pat` does not occur). -/
def afterFirst (pat s : List Char) : List Char :=
  match findSub s pat with
  | .negSucc _ => s
  | .ofNat i => s.drop (i + pat.length)

/-- The part of `s` strictly after the last occurrence of `pat`
(`s.split(pat)[-1]`; the whole of `s` when `pat` does not occur). -/
def afterLast (pat s : List Char) : List Char :=
  match rfind s pat with
  | .negSucc _ => s
  | .ofNat i => s.drop (i + pat.length)

/-- Normalize one Python slice bound against a string of length `len`:
negative indices count from the end, and both directions clamp. -/
def pySliceIdx (len : Nat) (i : Int) : Nat :=
  if i < 0 then ((len : Int) + i).toNat else min i.toNat len

/-- Python `s[a:b]` with full slice semantics. -/
def pySlice (s : List Char) (a b : Int) : List Char :=
  (s.take (pySliceIdx s.length b)).drop (pySliceIdx s.length a)

/-- Python `s[a:]`. -/
def pySliceFrom (s : List Char) (a : Int) : List Char :=
  s.drop (pySliceIdx s.length a)

/-- Python `s.replace(pat, "", 1)`: remove the first occurrence of `pat`. -/
def removeFirst (pat s : List Char) : List Char :=
  match findSub s pat with
  | .negSucc _ => s
  | .ofNat i => s.take i ++ s.drop (i + pat.length)

/-! ## JSON model (`json.loads`)

The source calls `json.loads` only on regex-matched brace-delimited texts and
always catches `json.JSONDecodeError` / `ValueError`, so decoding is modelled
as `Option JVal`.  Numbers are represented by their truthiness alone (see the
module comment). -/

/-- A decoded Python/JSON value. -/
inductive JVal where
  | null
  | bool (b : Bool)
  | num (nonzero : Bool)
  | str (s : List Char)
  | arr (elems : List JVal)
  | obj (fields : List (List Char × JVal))

/-- Python truthiness of a decoded JSON value. -/
def JVal.truthy : JVal → Bool
  | .null => false
  | .bool b => b
  | .num nz => nz
  | .str s => ¬ s.isEmpty
  | .arr es => ¬ es.isEmpty
  | .obj fs => ¬ fs.isEmpty

/-- Python `key in data` for a decoded object (`data` is always a `dict` at the
call sites: the decoded text starts with a brace). -/
def jObjHas (key : List Char) (fields : List (List Char × JVal)) : Bool :=
  fields.any (fun kv => kv.1 = key)

/-- Python `data[key]` / `data.get(key, default)` on a decoded object; for
duplicate keys `json.loads` keeps the last binding. -/
def jObjGet (key : List Char) (default : JVal) (fields : List (List Char × JVal)) : JVal :=
  match fields.reverse.find? (fun kv => kv.1 = key) with
  | some kv => kv.2
  | none => default

/-- The whitespace accepted between JSON tokens (`json.decoder` skips exactly
space, tab, newline and carriage return). -/
def isJsonWs (c : Char) : Bool :=
  c = ' ' ∨ c = '\t' ∨ c = '\n' ∨ c = '\r'

/-- Skip inter-token whitespace. -/
def jskipWs (s : List Char) : List Char :=
  s.dropWhile isJsonWs

/-- Hex digit value, if any. -/
def hexVal (c : Char) : Option Nat :=
  if '0' ≤ c ∧ c ≤ '9' then some (c.toNat - '0'.toNat)
  else if 'a' ≤ c ∧ c ≤ 'f' then some (c.toNat - 'a'.toNat + 10)
  else if 'A' ≤ c ∧ c ≤ 'F' then some (c.toNat - 'A'.toNat + 10)
  else none

/-- Decode a `\uXXXX` code unit. -/
def hex4 (a b c d : Char) : Option Nat := do
  let va ← hexVal a
  let vb ← hexVal b
  let vc ← hexVal c
  let vd ← hexVal d
  pure (((va * 16 + vb) * 16 + vc) * 16 + vd)

/-- Parse the body of a JSON string literal (the opening quote already
consumed), returning the decoded content and the remainder after the closing
quote.  Raw control characters are rejected, as in strict-mode `json.loads`.
A `\uXXXX` escape yields the corresponding scalar; surrogate pairs are
combined; a lone surrogate (unrepresentable in `Char`) is mapped to U+FFFD.
Every step consumes at least one character, so fuel `input length + 1`
(supplied by the `jparseStr` wrapper) never runs dry. -/
def jparseStrF : Nat → List Char → Option (List Char × List Char)
  | 0, _ => none
  | _ + 1, [] => none
  | _ + 1, '"' :: rest => some ([], rest)
  | fuel + 1, '\\' :: 'u' :: a :: b :: c :: d :: rest => do
    let n ← hex4 a b c d
    if 0xD800 ≤ n ∧ n ≤ 0xDBFF then
      match rest with
      | '\\' :: 'u' :: a2 :: b2 :: c2 :: d2 :: rest2 => do
        let n2 ← hex4 a2 b2 c2 d2
        if 0xDC00 ≤ n2 ∧ n2 ≤ 0xDFFF then
          let code := 0x10000 + (n - 0xD800) * 0x400 + (n2 - 0xDC00)
          let (tail, rem) ← jparseStrF fuel rest2
          pure (Char.ofNat code :: tail, rem)
        else do
          let (tail, rem) ← jparseStrF fuel rest
          pure ('�' :: tail, rem)
      | _ => do
        let (tail, rem) ← jparseStrF fuel rest
        pure ('�' :: tail, rem)
    else if 0xDC00 ≤ n ∧ n ≤ 0xDFFF then do
      let (tail, rem) ← jparseStrF fuel rest
      pure ('�' :: tail, rem)
    else do
      let (tail, rem) ← jparseStrF fuel rest
      pure (Char.ofNat n :: tail, rem)
  | fuel + 1, '\\' :: e :: rest => do
    let c ← match e with
      | '"' => some '"'
      | '\\' => some '\\'
      | '/' => some '/'
      | 'b' => some '\x08'
      | 'f' => some '\x0c'
      | 'n' => some '\n'
      | 'r' => some '\r'
      | 't' => some '\t'
      | _ => none
    let (tail, rem) ← jparseStrF fuel rest
    pure (c :: tail, rem)
  | fuel + 1, c :: rest =>
    if c.toNat < 0x20 then none
    else do
      let (tail, rem) ← jparseStrF fuel rest
      pure (c :: tail, rem)

/-- Parse the body of a JSON string literal (see `jparseStrF`). -/
def jparseStr (s : List Char) : Option (List Char × List Char) :=
  jparseStrF (s.length + 1) s

/-- Parse one JSON number token per the `json` module grammar
(`-?(0|[1-9]\d*)(\.\d+)?([eE][+-]?\d+)?`), returning only its truthiness and
the remainder. -/
def jparseNum (s : List Char) : Option (Bool × List Char) :=
  let (neg, s1) := match s with
    | '-' :: r => (true, r)
    | _ => (false, s)
  let _ := neg
  match s1 with
  | [] => none
  | c :: _ =>
    if ¬ c.isDigit then none
    else
      let intPart := s1.takeWhile Char.isDigit
      -- leading-zero rule: "0" alone, or a leading digit 1-9
      if intPart.length > 1 ∧ intPart.headI = '0' then none
      else
        let s2 := s1.drop intPart.length
        let (fracDigits, s3) := match s2 with
          | '.' :: r =>
            let ds := r.takeWhile Char.isDigit
            (ds, r.drop ds.length)
          | _ => ([], s2)
        match s2, fracDigits with
        | '.' :: _, [] => none
        | _, _ =>
          let s4 := match s3 with
            | 'e' :: '+' :: r => some (r.takeWhile Char.isDigit, r)
            | 'e' :: '-' :: r => some (r.takeWhile Char.isDigit, r)
            | 'e' :: r => some (r.takeWhile Char.isDigit, r)
            | 'E' :: '+' :: r => some (r.takeWhile Char.isDigit, r)
            | 'E' :: '-' :: r => some (r.takeWhile Char.isDigit, r)
            | 'E' :: r => some (r.takeWhile Char.isDigit, r)
            | _ => none
          let (rest, expOk) := match s4 with
            | some (ds, r) => (r.drop ds.length, !ds.isEmpty)
            | none => (s3, true)
          if expOk then
            let nonzero := intPart.any (· ≠ '0') || fracDigits.any (· ≠ '0')
            some (nonzero, rest)
          else none

mutual

/-- Parse one JSON value.  `fuel` bounds the recursion into containers; every
recursive call consumes at least one input character first, so
`input length + 2` fuel never runs dry.  `jparseMembers` / `jparseElems`
continue an object / array whose opening bracket (and any following
whitespace) is consumed and which is known not to close immediately. -/
def jparseVal : Nat → List Char → Option (JVal × List Char)
  | 0, _ => none
  | fuel + 1, s =>
    match s with
    | '{' :: rest =>
      let r := jskipWs rest
      (match r with
       | '}' :: r2 => some (.obj [], r2)
       | _ => jparseMembers fuel r [])
    | '[' :: rest =>
      let r := jskipWs rest
      (match r with
       | ']' :: r2 => some (.arr [], r2)
       | _ => jparseElems fuel r [])
    | '"' :: rest =>
      match jparseStr rest with
      | some (content, rem) => some (.str content, rem)
      | none => none
    | 't' :: 'r' :: 'u' :: 'e' :: rest => some (.bool true, rest)
    | 'f' :: 'a' :: 'l' :: 's' :: 'e' :: rest => some (.bool false, rest)
    | 'n' :: 'u' :: 'l' :: 'l' :: rest => some (.null, rest)
    | 'N' :: 'a' :: 'N' :: rest => some (.num true, rest)
    | 'I' :: 'n' :: 'f' :: 'i' :: 'n' :: 'i' :: 't' :: 'y' :: rest => some (.num true, rest)
    | '-' :: 'I' :: 'n' :: 'f' :: 'i' :: 'n' :: 'i' :: 't' :: 'y' :: rest =>
      some (.num true, rest)
    | _ =>
      match jparseNum s with
      | some (nz, rest) => some (.num nz, rest)
      | none => none

/-- Parse the members of an object, positioned at a key string. -/
def jparseMembers : Nat → List Char → List (List Char × JVal) → Option (JVal × List Char)
  | 0, _, _ => none
  | fuel + 1, s, acc =>
    match s with
    | '"' :: rest =>
      match jparseStr rest with
      | none => none
      | some (key, r1) =>
        match jskipWs r1 with
        | ':' :: r2 =>
          match jparseVal fuel (jskipWs r2) with
          | none => none
          | some (v, r3) =>
            match jskipWs r3 with
            | ',' :: r4 => jparseMembers fuel (jskipWs r4) (acc ++ [(key, v)])
            | '}' :: r4 => some (.obj (acc ++ [(key, v)]), r4)
            | _ => none
        | _ => none
    | _ => none

/-- Parse the elements of an array, positioned at a value. -/
def jparseElems : Nat → List Char → List JVal → Option (JVal × List Char)
  | 0, _, _ => none
  | fuel + 1, s, acc =>
    match jparseVal fuel s with
    | none => none
    | some (v, r1) =>
      match jskipWs r1 with
      | ',' :: r2 => jparseElems fuel (jskipWs r2) (acc ++ [v])
      | ']' :: r2 => some (.arr (acc ++ [v]), r2)
      | _ => none

end

/-- Python `json.loads`: one JSON document with nothing but whitespace around
it; `none` models a raised `json.JSONDecodeError`. -/
def jsonLoads (s : List Char) : Option JVal :=
  match jparseVal (s.length + 2) (jskipWs s) with
  | some (v, rest) => if jskipWs rest = [] then some v else none
  | none => none

/-! ## `llm_client.py` -/

/-- The Uncategorized sentinel `"未分类"`. -/
def uncategorized : List Char := "未分类".data

/-- The reasoning-open marker. -/
def thinkOpen : List Char := "<think>".data

/-- The reasoning-close marker. -/
def thinkClose : List Char := "</think>".data

/-- The separator tuple of `_normalize_domain` (line 14): newline, Chinese
comma, Chinese full stop, Latin comma, Latin full stop.  Each is a single
character, so Python's `sep in s` is character membership. -/
def ndSepChars : List Char := ['\n', '，', '。', ',', '.']

/-- The split loop of `_normalize_domain` (lines 14–16): for each separator in
order, if it occurs, keep the (stripped) part before its first occurrence. -/
def splitSeps : List Char → List Char → List Char
  | [], s => s
  | c :: cs, s => splitSeps cs (if c ∈ s then pyStrip (s.takeWhile (· ≠ c)) else s)

/-- The alternatives of the regex `^(领域|学科|类别|领域：|学科：|类别：)\s*`, in
source order (Python's `re` picks the leftmost alternative that matches). -/
def categoryAlts : List (List Char) :=
  ["领域".data, "学科".data, "类别".data, "领域：".data, "学科：".data, "类别：".data]

/-- Model of `re.sub(r"^(领域|学科|类别|领域：|学科：|类别：)\s*", "", s)`: drop one leading
category word and any following whitespace. -/
def chopCategory (s : List Char) : List Char :=
  match categoryAlts.find? (fun alt => alt.isPrefixOf s) with
  | some alt => (s.drop alt.length).dropWhile isPySpace
  | none => s

/-- The character set of `s.strip('"\' \t')` (line 19). -/
def quoteSet : List Char := ['"', Char.ofNat 39, ' ', '\t']

/-- Model of `_normalize_domain` (lines 8–20): extract a single domain label from model
output, dropping separators, category-word markers and quotes. -/
def _normalize_domain (raw : List Char) : List Char :=
  if raw.isEmpty then uncategorized
  else if (pyStripSet quoteSet (chopCategory (splitSeps ndSepChars (pyStrip raw)))).isEmpty then
    uncategorized
  else pyStripSet quoteSet (chopCategory (splitSeps ndSepChars (pyStrip raw)))

/-- Model of `DEFAULT_SYSTEM_PROMPT` (lines 126–127). -/
def DEFAULT_SYSTEM_PROMPT : List Char :=
  ("你是文献领域分类器。本任务只需从给定内容判断一个学科名称，无需推理过程。\n禁止使用 <think> 或任何思考标签，不要输出解释，直接只输出一行 JSON：\x7b\"field\": \"学科名称\"\x7d。").data

/-- Model of `DEFAULT_MAX_PROMPT_CHARS` (line 130). -/
def DEFAULT_MAX_PROMPT_CHARS : Int := 4096

/-- Model of `PREFERRED_DOMAINS` (lines 133–138). -/
def PREFERRED_DOMAINS : List (List Char) :=
  ["细胞生物学".data, "分子生物学".data, "免疫学".data, "肿瘤学".data, "癌症生物学".data,
   "干细胞生物学".data, "发育生物学".data, "药理学".data, "毒理学".data, "再生医学".data,
   "组织工程".data, "疫苗学".data, "病毒学".data, "生物制药".data, "生物技术".data,
   "体外受精".data, "生殖生物学".data, "培养肉".data, "合成生物学".data, "微生物学".data,
   "植物生物学".data, "神经科学".data, "内分泌学".data, "代谢研究".data, "流行病学".data,
   "公共卫生".data]

/-- The separator priority list of `_truncate_for_context` (line 149). -/
def tfcSeps : List (List Char) :=
  ["\n".data, "。".data, ".".data, " ".data, "，".data, ",".data]

/-- The backward boundary search shared by `_truncate_for_context`
(`llm_client.py` line 149) and `_truncate` (`extractors.py` line 182): the
first separator in the priority list whose last occurrence in `t` lies past
`half` wins, and the cut keeps everything up to and including it. -/
def truncSearch (t : List Char) (half : Int) : List (List Char) → Option Nat
  | [] => none
  | sep :: rest =>
    if rfind t sep > half then some ((rfind t sep).toNat + 1) else truncSearch t half rest

/-- Model of `_truncate_for_context` (lines 141–153): the stripped text is returned
whole when within the cap, else its first `maxChars` characters are cut at the
boundary `truncSearch` finds (hard cut when it finds none). -/
def _truncate_for_context (s : List Char) (maxChars : Int) : List Char :=
  if s.isEmpty ∨ maxChars ≤ 0 then []
  else if ((pyStrip s).length : Int) ≤ maxChars then pyStrip s
  else
    match truncSearch ((pyStrip s).take maxChars.toNat) (maxChars / 2) tfcSeps with
    | some k => pyStrip (((pyStrip s).take maxChars.toNat).take k)
    | none => pyStrip ((pyStrip s).take maxChars.toNat)

/-- The prompt template `prompt_prefix_tpl` (lines 182–191) up to its first
`%s` hole (the joined domain list). -/
def tplA : List Char :=
  ("判断下面文献的最接近最小领域（学科）。\n请优先从以下领域中选择最贴近的一项：").data

/-- The prompt template between its two `%s` holes. -/
def tplB : List Char :=
  ("\n若以上均不贴近，再自行给出一个学科名称。只输出一个中文名。\n直接输出一行 JSON，不要 <think>、不要解释：\n\x7b\"field\": \"学科名称\"\x7d\n\n【文件名】").data

/-- The prompt template after its second `%s` hole (the title). -/
def tplC : List Char := ("\n\n【标题、作者、机构、摘要】\n").data

/-- Model of `prompt_prefix = prompt_prefix_tpl % (domains_str, title_s)` (line 192):
the fixed prefix of the user prompt, embedding the domain vocabulary and the
title. -/
def fixedPrefixWithTitle (domainsStr titleS : List Char) : List Char :=
  tplA ++ domainsStr ++ tplB ++ titleS ++ tplC

/-- Prompt assembly (lines 194–199): the excerpt budget is
`cap − len(system) − len(prefix)` floored at zero, the content is truncated to
it before concatenation, and the user prompt is prefix ++ truncated content. -/
def assembledUserPrompt (sysMsg domainsStr titleS contentS : List Char) (cap : Int) : List Char :=
  fixedPrefixWithTitle domainsStr titleS ++
    _truncate_for_context contentS
      (max 0 (cap - (sysMsg.length : Int) -
        ((fixedPrefixWithTitle domainsStr titleS).length : Int)))

/-- The prompt-assembly stage of `identify_domain` (lines 176–199), returning
`(system prompt, user prompt)`. -/
def identifyDomainPrompt (title fullText : List Char) (sysMsgOpt : Option (List Char))
    (preferred : Option (List (List Char))) (maxPromptChars : Option Int) :
    List Char × List Char :=
  let domainsStr := List.intercalate "、".data (preferred.getD PREFERRED_DOMAINS)
  let titleS := pyStrip (if title.isEmpty then "Unknown".data else title)
  let contentS := pyStrip (if fullText.isEmpty then "No Content Detected".data else fullText)
  let sysMsg := sysMsgOpt.getD DEFAULT_SYSTEM_PROMPT
  let cap := maxPromptChars.getD DEFAULT_MAX_PROMPT_CHARS
  (sysMsg, assembledUserPrompt sysMsg domainsStr titleS contentS cap)

/-- Python exceptions the embedding can surface (everything else the source
raises is caught at its call sites). -/
inductive PyErr where
  | attributeError
deriving DecidableEq

/-- Model of `(v or "").strip()` applied to a decoded JSON value `v`: a falsy value
gives the empty string, a truthy string is stripped, and a truthy non-string
raises `AttributeError` (`.strip()` is not defined on it). -/
def orEmptyStrip (v : JVal) : Except PyErr (List Char) :=
  if v.truthy then
    match v with
    | .str s => .ok (pyStrip s)
    | _ => .error .attributeError
  else .ok []

/-- The local `cn` of `_normalize_minimal_domain` after line 218:
`_normalize_domain(cn) if cn else ""`. -/
def nmdCn (cn0 : List Char) : List Char :=
  if cn0.isEmpty then [] else _normalize_domain cn0

/-- The local `en` of `_normalize_minimal_domain` after line 220:
backfilled with `cn` when empty and `cn` is not. -/
def nmdEn (cn0 en0 : List Char) : List Char :=
  if en0.isEmpty ∧ ¬ (nmdCn cn0).isEmpty then nmdCn cn0 else en0

/-- The body of `_normalize_minimal_domain` (lines 218–225) after its two
arguments have been passed through `(x or "").strip()` (lines 216–217). -/
def nmdCore (cn0 en0 : List Char) : List Char × List Char :=
  if (nmdCn cn0).isEmpty ∨ nmdCn cn0 = uncategorized then
    (uncategorized, if (nmdEn cn0 en0).isEmpty then "Uncategorized".data else nmdEn cn0 en0)
  else if hasSub thinkOpen (nmdCn cn0) ∨ hasSub thinkClose (nmdCn cn0) then
    (uncategorized, "Uncategorized".data)
  else
    (nmdCn cn0, if (nmdEn cn0 en0).isEmpty then nmdCn cn0 else nmdEn cn0 en0)

/-- Model of `_normalize_minimal_domain` (lines 214–225) at call sites whose arguments
are statically strings, where `(x or "").strip()` cannot raise. -/
def nmdStr (cn en : List Char) : List Char × List Char :=
  nmdCore (pyStrip cn) (pyStrip en)

/-- Model of `_normalize_minimal_domain` (lines 214–225) at call sites whose arguments
are decoded JSON values of arbitrary type. -/
def nmdJVal (a b : JVal) : Except PyErr (List Char × List Char) :=
  match orEmptyStrip a with
  | .error e => .error e
  | .ok cn =>
    match orEmptyStrip b with
    | .error e => .error e
    | .ok en => .ok (nmdCore cn en)

/-- Attempt to match `_FIELD_JSON_RE`, the regex
`\{\s*"field"\s*:\s*"([^"]+)"\s*\}` (line 228), at the head of `s`, returning
the captured group.  The greedy `[^"]+` cannot backtrack usefully (the
character after the group must be a quote), so the group is the maximal
nonempty run of non-quote characters after the opening quote. -/
def fieldJsonMatchAt (s : List Char) : Option (List Char) :=
  match s with
  | '{' :: r0 =>
    let r1 := r0.dropWhile isPySpace
    if "\"field\"".data.isPrefixOf r1 then
      match (r1.drop 7).dropWhile isPySpace with
      | ':' :: r3 =>
        (match r3.dropWhile isPySpace with
         | '"' :: r5 =>
           let grp := r5.takeWhile (· ≠ '"')
           if grp.isEmpty then none
           else
             (match r5.drop grp.length with
              | '"' :: r7 =>
                (match r7.dropWhile isPySpace with
                 | '}' :: _ => some grp
                 | _ => none)
              | _ => none)
         | _ => none)
      | _ => none
    else none
  | _ => none

/-- Model of `_FIELD_JSON_RE.search(s)`: the captured group of the leftmost match. -/
def fieldJsonSearch (s : List Char) : Option (List Char) :=
  (List.range (s.length + 1)).findSome? (fun i => fieldJsonMatchAt (s.drop i))

/-- Model of `re.finditer` for the brace-object regexes `\{[^{}]*KEY[^{}]*\}`: a match
starts at a `{` whose next brace character is `}` and whose brace-free content
satisfies `p`; scanning resumes after a match, or one character further after
a failed candidate.  Each step consumes at least one character, so fuel
`input length + 1` (supplied by `finditerBrace`) never runs dry. -/
def finditerBraceAux (p : List Char → Bool) : Nat → List Char → List (List Char)
  | 0, _ => []
  | fuel + 1, s =>
    match s with
    | [] => []
    | '{' :: rest =>
      let content := rest.takeWhile (fun c => ¬ (c = '{' ∨ c = '}'))
      (match rest.drop content.length with
       | '}' :: tail =>
         if p content then ('{' :: (content ++ ['}'])) :: finditerBraceAux p fuel tail
         else finditerBraceAux p fuel rest
       | _ => finditerBraceAux p fuel rest)
    | _ :: rest => finditerBraceAux p fuel rest

/-- All matches of a brace-object regex (see `finditerBraceAux`). -/
def finditerBrace (p : List Char → Bool) (s : List Char) : List (List Char) :=
  finditerBraceAux p (s.length + 1) s

/-- Content condition of `\{[^{}]*"field"[^{}]*\}` (line 256). -/
def contentHasFieldKey (content : List Char) : Bool :=
  hasSub "\"field\"".data content

/-- Content condition of `\{[^{}]*"domain_cn"[^{}]*"domain_en"[^{}]*\}`
(line 280): a quoted `domain_cn` key followed, disjointly, by a quoted
`domain_en` key. -/
def contentHasCnEn (content : List Char) : Bool :=
  match findSub content "\"domain_cn\"".data with
  | .negSucc _ => false
  | .ofNat i => hasSub "\"domain_en\"".data (content.drop (i + 11))

/-- The `for m in re.finditer(...)` loop of `_parse_field_format`
(lines 256–264): the first match that decodes to an object with a nonempty
string `field` value free of reasoning markers wins; decode failures and
non-string values continue the scan. -/
def tryFieldMatches : List (List Char) → Option (List Char × List Char)
  | [] => none
  | m :: rest =>
    match jsonLoads m with
    | some (.obj fs) =>
      if jObjHas "field".data fs then
        match jObjGet "field".data .null fs with
        | .str v =>
          if ¬ (pyStrip v).isEmpty ∧ ¬ hasSub thinkOpen (pyStrip v) ∧
              ¬ hasSub thinkClose (pyStrip v) then
            some (nmdStr (pyStrip v) (pyStrip v))
          else tryFieldMatches rest
        | _ => tryFieldMatches rest
      else tryFieldMatches rest
    | some _ => tryFieldMatches rest
    | none => tryFieldMatches rest

/-- The cleaned strict-path candidate (line 252):
`m.group(1).strip().strip("。，,、")`. -/
def strictCn (grp : List Char) : List Char :=
  pyStripSet "。，,、".data (pyStrip grp)

/-- Model of `_parse_field_format` (lines 248–267): the strict regex match (validated
to be nonempty, marker-free and at most 50 characters), then the tolerant
brace-object scan. -/
def _parse_field_format (text : List Char) : Option (List Char × List Char) :=
  match fieldJsonSearch text with
  | some grp =>
    if ¬ (strictCn grp).isEmpty ∧ ¬ hasSub thinkOpen (strictCn grp) ∧
        ¬ hasSub thinkClose (strictCn grp) ∧ (strictCn grp).length ≤ 50 then
      some (nmdStr (strictCn grp) (strictCn grp))
    else tryFieldMatches (finditerBrace contentHasFieldKey text)
  | none => tryFieldMatches (finditerBrace contentHasFieldKey text)

/-- Model of `_is_think_only` (lines 230–246). -/
def _is_think_only (raw : List Char) : Bool :=
  if raw.isEmpty then false
  else
    let s := pyStrip raw
    if ¬ thinkOpen.isPrefixOf (lowerAscii s) then false
    else if ¬ hasSub thinkClose s then true
    else
      let after := pyStrip (afterFirst thinkClose s)
      if after.isEmpty then true
      else if (fieldJsonSearch after).isSome then false
      else if hasSub "\"field\"".data after ∧ hasSub ['"'] after then false
      else true

/-- The `for m in re.finditer(...)` loop over `domain_cn`/`domain_en` objects
(lines 280–288): the first match that decodes to an object holding both keys
is normalized and returned (an `AttributeError` from a non-string value
propagates); decode failures continue the scan. -/
def tryCnEnMatches : List (List Char) → Except PyErr (Option (List Char × List Char))
  | [] => .ok none
  | m :: rest =>
    match jsonLoads m with
    | some (.obj fs) =>
      if jObjHas "domain_cn".data fs ∧ jObjHas "domain_en".data fs then
        (nmdJVal (jObjGet "domain_cn".data (.str []) fs)
                 (jObjGet "domain_en".data (.str []) fs)).map some
      else tryCnEnMatches rest
    | some _ => tryCnEnMatches rest
    | none => tryCnEnMatches rest

/-- Model of `re.search(r"\{.*\}", s, re.DOTALL)`: greedy, hence from the first `{` to
the last `}`, provided the latter comes later. -/
def genericBraceMatch (s : List Char) : Option (List Char) :=
  match findSub s ['{'], rfind s ['}'] with
  | .ofNat i, .ofNat j => if i < j then some ((s.take (j + 1)).drop i) else none
  | _, _ => none

/-- The generic brace parse (lines 289–298).  `.ok none` means fall through to
the pipe fallback (no match, or `json.JSONDecodeError` caught by the outer
`except`); a decoded object always produces a result or raises.  The matched
text starts with `{`, so a successful decode is always an object. -/
def genericBrace (work : List Char) : Except PyErr (Option (List Char × List Char)) :=
  match genericBraceMatch work with
  | none => .ok none
  | some mtext =>
    match jsonLoads mtext with
    | none => .ok none
    | some (.obj fs) =>
      if jObjHas "field".data fs then
        match orEmptyStrip (jObjGet "field".data .null fs) with
        | .error e => .error e
        | .ok cn =>
          if ¬ cn.isEmpty then
            .ok (some (nmdStr cn cn))
          else
            (nmdJVal (jObjGet "domain_cn".data (.str []) fs)
                     (jObjGet "domain_en".data (.str []) fs)).map some
      else
        (nmdJVal (jObjGet "domain_cn".data (.str []) fs)
                 (jObjGet "domain_en".data (.str []) fs)).map some
    | some _ => .ok none

/-- The reasoning-tail stripping of `_parse` (line 274): the stripped text
after the last reasoning-close marker, if any. -/
def parseWork (raw : List Char) : List Char :=
  if hasSub thinkClose raw then pyStrip (afterLast thinkClose raw) else pyStrip raw

/-- Model of `_parse` (lines 269–305): reasoning-only rejection, reasoning-tail
stripping, then the layered strategies in order — strict/noisy field JSON,
`domain_cn`/`domain_en` scan, generic brace parse, pipe fallback. -/
def _parse (raw : List Char) : Except PyErr (Option (List Char × List Char)) :=
  if raw.isEmpty then .ok none
  else if _is_think_only raw then .ok none
  else
    match _parse_field_format (parseWork raw) with
    | some r => .ok (some r)
    | none =>
      match tryCnEnMatches (finditerBrace contentHasCnEn (parseWork raw)) with
      | .error e => .error e
      | .ok (some r) => .ok (some r)
      | .ok none =>
        match genericBrace (parseWork raw) with
        | .error e => .error e
        | .ok (some r) => .ok (some r)
        | .ok none =>
          if hasSub ['|'] (parseWork raw) then
            .ok (some (nmdStr (pyStrip (beforeFirst ['|'] (parseWork raw)))
                              (pyStrip (beforeFirst ['|'] (afterFirst ['|'] (parseWork raw))))))
          else .ok none

/-- The terminal best-effort normalization of `identify_domain`
(lines 315–320): `(raw2 or raw or "").strip()` is normalized and accepted only
if nonempty, not the sentinel and free of reasoning markers. -/
def bestEffortCn (raw raw2 : List Char) : List Char :=
  _normalize_domain (pyStrip (if ¬ raw2.isEmpty then raw2 else raw))

/-- See `bestEffortCn` for the normalized candidate (lines 316–317). -/
def bestEffortLabel (raw raw2 : List Char) : List Char × List Char :=
  if ¬ (bestEffortCn raw raw2).isEmpty ∧ bestEffortCn raw raw2 ≠ uncategorized ∧
      ¬ hasSub thinkOpen (bestEffortCn raw raw2) ∧ ¬ hasSub thinkClose (bestEffortCn raw raw2) then
    (bestEffortCn raw raw2, bestEffortCn raw raw2)
  else (uncategorized, "Uncategorized".data)

/-- The second-attempt stage of `identify_domain` (lines 311–320): parse the
second raw response; any parsed result is returned as is; otherwise the
best-effort normalization runs. -/
def identifySecond (raw raw2 : List Char) : Except PyErr (List Char × List Char) :=
  match _parse raw2 with
  | .error e => .error e
  | .ok (some r) => .ok r
  | .ok none => .ok (bestEffortLabel raw raw2)

/-- The response-handling stage of `identify_domain` (lines 307–320) for a
non-mock provider, as a function of the raw texts the gateway returns for the
first and (if reached) second request.  Both requests carry the identical
prompt; no further gateway calls exist in the source. -/
def identify_domain (raw raw2 : List Char) : Except PyErr (List Char × List Char) :=
  match _parse raw with
  | .error e => .error e
  | .ok (some r) =>
    if ¬ r.1.isEmpty ∧ r.1 ≠ uncategorized then .ok r
    else identifySecond raw raw2
  | .ok none => identifySecond raw raw2

/-! ## `extractors.py` -/

/-- Model of `DEFAULT_CHUNK_SIZE` (line 16). -/
def DEFAULT_CHUNK_SIZE : Int := 800

/-- Model of `DEFAULT_CHUNK_OVERLAP` (line 17). -/
def DEFAULT_CHUNK_OVERLAP : Int := 100

/-- The in-loop separator priority list of `chunk_text` (line 92), ending with
the empty separator. -/
def chunkSeps : List (List Char) :=
  ["\n\n".data, "\n".data, "。".data, ".".data, " ".data, []]

/-- The backward boundary search inside `chunk_text`'s loop (lines 92–96): the
first separator whose last occurrence in the window lies past the midpoint
resets `end` to just after that occurrence (`rfind("") = len(segment)` makes
the empty separator a hard cut at the window end). -/
def chunkSearch (segment : List Char) (chunkSize start : Int) : Option Int :=
  chunkSeps.findSome? (fun sep =>
    let idx := rfind segment sep
    if idx > chunkSize / 2 then
      some (start + idx + (if sep.isEmpty then 0 else (sep.length : Int)))
    else none)

/-- One iteration of `chunk_text`'s `while` loop (lines 83–100) at index
`start`: `.inl c` means the loop emitted the final remainder `c` (if nonempty)
and broke; `.inr (start', c)` means it emitted `c` (if nonempty) and continues
at `start'`.  Slicing follows Python semantics, including negative indices. -/
def chunkStep (text : List Char) (chunkSize overlap start : Int) :
    Option (List Char) ⊕ (Int × Option (List Char)) :=
  let e0 := start + chunkSize
  if (text.length : Int) ≤ e0 then
    let c := pyStrip (pySliceFrom text start)
    .inl (if c.isEmpty then none else some c)
  else
    let segment := pySlice text start e0
    let endv := (chunkSearch segment chunkSize start).getD e0
    let c := pyStrip (pySlice text start endv)
    .inr (endv - min overlap (chunkSize - 1), if c.isEmpty then none else some c)

/-- The `while` loop of `chunk_text`, with fuel: `none` means the loop has not
finished within `fuel` iterations. -/
def chunkLoop (text : List Char) (chunkSize overlap : Int) :
    Nat → Int → List (List Char) → Option (List (List Char))
  | 0, _, _ => none
  | fuel + 1, start, acc =>
    if start < (text.length : Int) then
      match chunkStep text chunkSize overlap start with
      | .inl last => some (acc ++ last.toList)
      | .inr (s', em) => chunkLoop text chunkSize overlap fuel s' (acc ++ em.toList)
    else some acc

/-- Model of `chunk_text` (lines 67–101), with fuel for the `while` loop. -/
def chunk_text (text : List Char) (chunkSize overlap : Int) (fuel : Nat) :
    Option (List (List Char)) :=
  if text.isEmpty ∨ chunkSize ≤ 0 then some []
  else if ((pyStrip text).length : Int) ≤ chunkSize then
    some (if (pyStrip text).isEmpty then [] else [pyStrip text])
  else chunkLoop (pyStrip text) chunkSize overlap fuel 0 []

/-- Model of `TITLE_MAX_CHARS` (line 145). -/
def TITLE_MAX_CHARS : Int := 200

/-- Model of `AUTHOR_MAX_CHARS` (line 146). -/
def AUTHOR_MAX_CHARS : Int := 200

/-- Model of `AFFILIATION_MAX_CHARS` (line 147). -/
def AFFILIATION_MAX_CHARS : Int := 300

/-- Model of `ABSTRACT_MAX_CHARS` (line 148). -/
def ABSTRACT_MAX_CHARS : Int := 600

/-- The separator priority list of `extractors._truncate` (line 182) — note:
no comma, unlike `_truncate_for_context`. -/
def exTruncSeps : List (List Char) :=
  ["\n".data, "。".data, ".".data, " ".data]

/-- Model of `extractors._truncate` (lines 175–186), same shape as
`_truncate_for_context` with the shorter separator list. -/
def _truncate (s : List Char) (maxChars : Int) : List Char :=
  if s.isEmpty ∨ maxChars ≤ 0 then []
  else if ((pyStrip s).length : Int) ≤ maxChars then pyStrip s
  else
    match truncSearch ((pyStrip s).take maxChars.toNat) (maxChars / 2) exTruncSeps with
    | some k => pyStrip (((pyStrip s).take maxChars.toNat).take k)
    | none => pyStrip ((pyStrip s).take maxChars.toNat)

/-- Model of `_find_abstract_span` (lines 151–172). -/
def _find_abstract_span (text : List Char) : Int × Int :=
  let textLower := lowerAscii text
  let start := (["abstract".data, "摘要".data, "summary".data]).foldl
    (fun st mark =>
      let i := findSub textLower mark
      if i ≠ -1 ∧ (st = -1 ∨ i < st) then i else st) (-1)
  if start = -1 then (-1, -1)
  else
    let lineEnd := findSubFrom text "\n".data start.toNat
    let start := if lineEnd ≠ -1 then lineEnd + 1 else start + 8
    let searchRegion := pySlice text start (start + 2000)
    let endInRegion := (["introduction".data, "1. introduction".data, "keywords".data,
        "key words".data, "索引".data, "1. ".data, "\n1.\t".data]).foldl
      (fun e mark =>
        let j := findSub (lowerAscii searchRegion) mark
        if j ≠ -1 ∧ j < e then j else e) ((searchRegion.length : Int))
    (start, start + endInRegion)

/-- The title-line acceptance test (line 196): longer than 10 characters and
not URL-like. -/
def titleQualifies (ln : List Char) : Bool :=
  ln.length > 10 ∧
    ¬ ("http".data.isPrefixOf (lowerAscii ln) ∨ "www.".data.isPrefixOf (lowerAscii ln))

/-- The title-accumulation loop of
`_extract_title_author_affiliation_abstract` (lines 194–199): `i` is the
enumeration index within the first four non-empty lines; after appending a
qualifying line the loop breaks when `i ≥ 1` or the line is longer than 80
characters. -/
def titleLinesGo : List (List Char) → Nat → List (List Char)
  | [], _ => []
  | ln :: rest, i =>
    if titleQualifies ln then
      if i ≥ 1 ∨ ln.length > 80 then [ln]
      else ln :: titleLinesGo rest (i + 1)
    else titleLinesGo rest (i + 1)

/-- The stripped non-empty lines of the (stripped) text (line 192). -/
def nonEmptyLines (text : List Char) : List (List Char) :=
  ((text.splitOn '\n').map pyStrip).filter (fun l => ¬ l.isEmpty)

/-- The affiliation keyword set (line 213). -/
def affilKeywords : List (List Char) :=
  ["department".data, "university".data, "hospital".data, "school".data, "college".data,
   "institute".data, "laboratory".data, "lab ".data, "学院".data, "大学".data, "系".data,
   "所".data, "医院".data, "实验室".data]

/-- Model of `_extract_title_author_affiliation_abstract` (lines 189–227). -/
def _extract_title_author_affiliation_abstract (fullText filename : List Char) :
    List Char × List Char × List Char × List Char :=
  let text := pyStrip fullText
  let lines := nonEmptyLines text
  let tls := titleLinesGo (lines.take 4) 0
  let title := if ¬ tls.isEmpty then _truncate (List.intercalate [' '] tls) TITLE_MAX_CHARS
               else filename
  let span := _find_abstract_span text
  let absStart := span.1
  let absEnd := span.2
  let abstract := if 0 ≤ absStart ∧ absStart < absEnd then
                    _truncate (pySlice text absStart absEnd) ABSTRACT_MAX_CHARS
                  else []
  let block0 := if 0 < absStart then pyStrip (pySlice text 0 absStart)
                else pyStrip (pySlice text 0 800)
  let block := tls.foldl (fun b ln => pyStrip (removeFirst ln b)) block0
  let beforeLines := (block.splitOn '\n').filter (fun l => ¬ (pyStrip l).isEmpty)
  let buckets := (beforeLines.take 20).foldl
    (fun (acc : List (List Char) × List (List Char)) ln =>
      let lnLower := lowerAscii ln
      if affilKeywords.any (fun kw => hasSub kw lnLower) ∨ ln.length > 60 then
        (acc.1, acc.2 ++ [ln])
      else (acc.1 ++ [ln], acc.2)) ([], [])
  let author := _truncate (List.intercalate ['\n'] buckets.1) AUTHOR_MAX_CHARS
  let affiliation := _truncate (List.intercalate ['\n'] buckets.2) AFFILIATION_MAX_CHARS
  let author := if author.isEmpty ∧ ¬ beforeLines.isEmpty then
                  _truncate (List.intercalate ['\n'] (beforeLines.take 5)) AUTHOR_MAX_CHARS
                else author
  let affiliation := if affiliation.isEmpty ∧ ¬ beforeLines.isEmpty ∧ author.isEmpty then
                       _truncate (List.intercalate ['\n'] (beforeLines.take 8)) AFFILIATION_MAX_CHARS
                     else affiliation
  (title, author, affiliation, abstract)

/-- Model of `PurePosixPath(p).name` for ordinary file paths: the last nonempty
`/`-separated segment. -/
def pathName (p : List Char) : List Char :=
  ((p.splitOn '/').filter (fun seg => ¬ seg.isEmpty)).getLastD []

/-- Model of `PurePosixPath(p).suffix`, per CPython: the part of the name from its last
dot, provided that dot is neither the first nor the last character. -/
def pathSuffix (p : List Char) : List Char :=
  let name := pathName p
  match rfind name ['.'] with
  | .ofNat i => if 0 < i ∧ (i : Int) < (name.length : Int) - 1 then name.drop i else []
  | .negSucc _ => []

/-- Model of `extract_title_abstract_body` (lines 230–267).  `pdfText` is the string
the `extract_pdf_text` collaborator would return (PDF text-layer or OCR
output); a non-`.pdf` suffix returns before that collaborator is consulted,
which the result's independence from `pdfText` witnesses. -/
def extract_title_abstract_body (pdfText : List Char) (filePath : List Char)
    (maxCharsForLLM : Int) : List Char × List Char × List Char :=
  if lowerAscii (pathSuffix filePath) ≠ ".pdf".data then (pathName filePath, [], [])
  else if (pyStrip pdfText).isEmpty then (pathName filePath, [], [])
  else
    let r := _extract_title_author_affiliation_abstract pdfText (pathName filePath)
    let title := r.1
    let author := r.2.1
    let affiliation := r.2.2.1
    let abstract := r.2.2.2
    let parts :=
      (if ¬ title.isEmpty then [("【标题】\n".data ++ title)] else []) ++
      (if ¬ author.isEmpty then [("【作者】\n".data ++ author)] else []) ++
      (if ¬ affiliation.isEmpty then [("【研究团队/机构】\n".data ++ affiliation)] else []) ++
      (if ¬ abstract.isEmpty then [("【摘要】\n".data ++ abstract)] else [])
    let content := List.intercalate "\n\n".data parts
    let content := if (content.length : Int) > maxCharsForLLM then _truncate content maxCharsForLLM
                   else content
    (pathName filePath, pyStrip content, [])

/-! ## `main.py` -/

/-- The `extensions` entry of `_default_config` (`main.py` line 31): the
scanner's default file-extension filter. -/
def defaultExtensions : List (List Char) :=
  [".pdf".data, ".docx".data, ".doc".data, ".txt".data]

/-! ## Claim-side definitions

`claimedRetryPolicy` transcribes the claim's description of the retry flow
verbatim — including its assertion that a second-attempt label degenerating to
Uncategorized is a failure routed to the best-effort normalization;
`amendedRetryPolicy` differs only there, returning any parsed second-attempt
result as is.  `labelInv` is the result invariant with no length bound. -/

/-- The result invariant: the Chinese label is the sentinel, or nonempty and
free of reasoning markers. -/
def labelInv (cn : List Char) : Prop :=
  cn = uncategorized ∨
    (cn ≠ [] ∧ hasSub thinkOpen cn = false ∧ hasSub thinkClose cn = false)

/-- Second attempt as the claim describes it: a label degenerating to
Uncategorized is a failure, routed to the best-effort normalization. -/
def claimedSecondStage (raw raw2 : List Char) : Except PyErr (List Char × List Char) :=
  match _parse raw2 with
  | .error e => .error e
  | .ok (some r) =>
    if r.1 ≠ uncategorized then .ok r else .ok (bestEffortLabel raw raw2)
  | .ok none => .ok (bestEffortLabel raw raw2)

/-- The retry policy exactly as the claim words it. -/
def claimedRetryPolicy (raw raw2 : List Char) : Except PyErr (List Char × List Char) :=
  match _parse raw with
  | .error e => .error e
  | .ok (some r) =>
    if r.1 ≠ uncategorized then .ok r else claimedSecondStage raw raw2
  | .ok none => claimedSecondStage raw raw2

/-- Second attempt as amended: any parsed result — the Uncategorized pair
included — is returned as is; only a wholly unparsable response reaches the
best-effort normalization. -/
def amendedSecondStage (raw raw2 : List Char) : Except PyErr (List Char × List Char) :=
  match _parse raw2 with
  | .error e => .error e
  | .ok (some r) => .ok r
  | .ok none => .ok (bestEffortLabel raw raw2)

/-- The retry policy as amended. -/
def amendedRetryPolicy (raw raw2 : List Char) : Except PyErr (List Char × List Char) :=
  match _parse raw with
  | .error e => .error e
  | .ok (some r) =>
    if r.1 ≠ uncategorized then .ok r else amendedSecondStage raw raw2
  | .ok none => amendedSecondStage raw raw2

/-! ## Lemmas about the string primitives -/

theorem pyStrip_sublist (s : List Char) : (pyStrip s).Sublist s := by
  unfold pyStrip
  have h1 : (List.dropWhile isPySpace s).Sublist s := List.dropWhile_sublist _
  have h2 : (List.dropWhile isPySpace (List.dropWhile isPySpace s).reverse).Sublist
      (List.dropWhile isPySpace s).reverse := List.dropWhile_sublist _
  have h3 := h2.reverse
  simp only [List.reverse_reverse] at h3
  exact h3.trans h1

theorem mem_of_mem_pyStrip {a : Char} {s : List Char} (h : a ∈ pyStrip s) : a ∈ s :=
  (pyStrip_sublist s).mem h

theorem pyStrip_length_le (s : List Char) : (pyStrip s).length ≤ s.length :=
  (pyStrip_sublist s).length_le

theorem dropWhile_head?_not {p : Char → Bool} {l : List Char} {x : Char}
    (h : (l.dropWhile p).head? = some x) : p x = false := by
  have := List.head?_dropWhile_not p l
  rw [h] at this
  exact this

theorem dropWhile_eq_self_of_head? {p : Char → Bool} {l : List Char}
    (h : ∀ x, l.head? = some x → p x = false) : l.dropWhile p = l := by
  cases l with
  | nil => rfl
  | cons c t =>
    have := h c rfl
    simp [List.dropWhile, this]

theorem pyStrip_idem (s : List Char) : pyStrip (pyStrip s) = pyStrip s := by
  set f := isPySpace with hf
  set a := s.dropWhile f with ha
  set b := a.reverse.dropWhile f with hb
  have hps : pyStrip s = b.reverse := rfl
  have head_a : ∀ x, a.head? = some x → f x = false := fun x hx => dropWhile_head?_not hx
  have head_b : ∀ x, b.head? = some x → f x = false := fun x hx => dropWhile_head?_not hx
  -- the head of `b.reverse` is the last of `b`, which survives from `a.reverse`
  have head_brev : ∀ x, b.reverse.head? = some x → f x = false := by
    intro x hx
    rw [List.head?_reverse] at hx
    obtain ⟨t, ht⟩ := List.dropWhile_suffix (l := a.reverse) f
    have hb' : t ++ b = a.reverse := ht
    have h2 : (t ++ b).getLast? = b.getLast?.or t.getLast? := List.getLast?_append
    rw [hb', hx] at h2
    have h3 : a.reverse.getLast? = some x := h2
    rw [List.getLast?_reverse] at h3
    exact head_a x h3
  show ((b.reverse.dropWhile f).reverse.dropWhile f).reverse = b.reverse
  rw [dropWhile_eq_self_of_head? head_brev]
  rw [List.reverse_reverse]
  rw [dropWhile_eq_self_of_head? head_b]

theorem pyStrip_nil : pyStrip [] = [] := rfl

/-- A single-character pattern occurs nowhere when the character is absent. -/
theorem rfindAux_eq_neg_one_of_not_mem {s : List Char} {c : Char} (h : c ∉ s) :
    ∀ n, rfindAux s [c] n = -1 := by
  intro n
  induction n with
  | zero =>
    unfold rfindAux
    have : [c].isPrefixOf s = false := by
      cases s with
      | nil => rfl
      | cons x t =>
        simp only [List.isPrefixOf, List.isPrefixOf_nil_left, Bool.and_true]
        simp only [List.mem_cons, not_or] at h
        simp [beq_eq_false_iff_ne, h.1]
    simp [this]
  | succ n ih =>
    unfold rfindAux
    have : [c].isPrefixOf (s.drop (n + 1)) = false := by
      cases hd : s.drop (n + 1) with
      | nil => rfl
      | cons x t =>
        have hx : x ∈ s := by
          have : x ∈ s.drop (n + 1) := by rw [hd]; exact List.mem_cons_self x t
          exact (List.drop_sublist _ _).mem this
        simp only [List.isPrefixOf, List.isPrefixOf_nil_left, Bool.and_true]
        have : c ≠ x := fun he => h (he ▸ hx)
        simp [beq_eq_false_iff_ne, this]
    simp [this, ih]

theorem rfind_eq_neg_one_of_not_mem {s : List Char} {c : Char} (h : c ∉ s) :
    rfind s [c] = -1 :=
  rfindAux_eq_neg_one_of_not_mem h s.length

/-! ## Lemmas about the shared truncation rule -/

theorem _truncate_nonpos (s : List Char) {n : Int} (hn : n ≤ 0) : _truncate s n = [] := by
  unfold _truncate
  rw [if_pos (Or.inr hn)]

theorem _truncate_for_context_nonpos (s : List Char) {n : Int} (hn : n ≤ 0) :
    _truncate_for_context s n = [] := by
  unfold _truncate_for_context
  rw [if_pos (Or.inr hn)]

theorem _truncate_length_le (s : List Char) (n : Int) : (_truncate s n).length ≤ n.toNat := by
  unfold _truncate
  split_ifs with h1 h2
  · simp
  · push_neg at h1
    omega
  · cases hts : truncSearch ((pyStrip s).take n.toNat) (n / 2) exTruncSeps with
    | none =>
      calc (pyStrip ((pyStrip s).take n.toNat)).length
          ≤ ((pyStrip s).take n.toNat).length := pyStrip_length_le _
        _ ≤ n.toNat := by simp [List.length_take]
    | some k =>
      calc (pyStrip (((pyStrip s).take n.toNat).take k)).length
          ≤ (((pyStrip s).take n.toNat).take k).length := pyStrip_length_le _
        _ ≤ ((pyStrip s).take n.toNat).length := by simp [List.length_take]
        _ ≤ n.toNat := by simp [List.length_take]

theorem _truncate_for_context_length_le (s : List Char) (n : Int) :
    (_truncate_for_context s n).length ≤ n.toNat := by
  unfold _truncate_for_context
  split_ifs with h1 h2
  · simp
  · push_neg at h1
    omega
  · cases hts : truncSearch ((pyStrip s).take n.toNat) (n / 2) tfcSeps with
    | none =>
      calc (pyStrip ((pyStrip s).take n.toNat)).length
          ≤ ((pyStrip s).take n.toNat).length := pyStrip_length_le _
        _ ≤ n.toNat := by simp [List.length_take]
    | some k =>
      calc (pyStrip (((pyStrip s).take n.toNat).take k)).length
          ≤ (((pyStrip s).take n.toNat).take k).length := pyStrip_length_le _
        _ ≤ ((pyStrip s).take n.toNat).length := by simp [List.length_take]
        _ ≤ n.toNat := by simp [List.length_take]

theorem _truncate_stripped (s : List Char) (n : Int) :
    pyStrip (_truncate s n) = _truncate s n := by
  unfold _truncate
  split_ifs with h1 h2
  · rfl
  · exact pyStrip_idem s
  · cases truncSearch ((pyStrip s).take n.toNat) (n / 2) exTruncSeps with
    | none => exact pyStrip_idem _
    | some k => exact pyStrip_idem _

theorem _truncate_for_context_stripped (s : List Char) (n : Int) :
    pyStrip (_truncate_for_context s n) = _truncate_for_context s n := by
  unfold _truncate_for_context
  split_ifs with h1 h2
  · rfl
  · exact pyStrip_idem s
  · cases truncSearch ((pyStrip s).take n.toNat) (n / 2) tfcSeps with
    | none => exact pyStrip_idem _
    | some k => exact pyStrip_idem _

theorem _truncate_eq_self {t : List Char} {n : Int} (h1 : pyStrip t = t)
    (h2 : (t.length : Int) ≤ n) : _truncate t n = t := by
  unfold _truncate
  rw [h1]
  split_ifs with hg
  · rcases hg with hg | hg
    · simp only [List.isEmpty_iff] at hg
      exact hg.symm
    · have : t.length = 0 := by omega
      simp only [List.length_eq_zero] at this
      exact this.symm
  · rfl

theorem _truncate_for_context_eq_self {t : List Char} {n : Int} (h1 : pyStrip t = t)
    (h2 : (t.length : Int) ≤ n) : _truncate_for_context t n = t := by
  unfold _truncate_for_context
  rw [h1]
  split_ifs with hg
  · rcases hg with hg | hg
    · simp only [List.isEmpty_iff] at hg
      exact hg.symm
    · have : t.length = 0 := by omega
      simp only [List.length_eq_zero] at this
      exact this.symm
  · rfl

/-! ## The label invariant through normalization and parsing -/

theorem nmdCore_inv (a b : List Char) : labelInv (nmdCore a b).1 := by
  by_cases hA : ((nmdCn a).isEmpty = true ∨ nmdCn a = uncategorized)
  · unfold nmdCore
    rw [if_pos hA]
    exact Or.inl rfl
  · by_cases hB : (hasSub thinkOpen (nmdCn a) = true ∨ hasSub thinkClose (nmdCn a) = true)
    · unfold nmdCore
      rw [if_neg hA, if_pos hB]
      exact Or.inl rfl
    · unfold nmdCore
      rw [if_neg hA, if_neg hB]
      push_neg at hA hB
      refine Or.inr ⟨?_, ?_, ?_⟩
      · intro he
        have he' : nmdCn a = [] := he
        exact hA.1 (by simp [he'])
      · simpa using hB.1
      · simpa using hB.2

theorem nmdStr_inv (a b : List Char) : labelInv (nmdStr a b).1 :=
  nmdCore_inv _ _

theorem nmdJVal_inv {a b : JVal} {r : List Char × List Char}
    (h : nmdJVal a b = .ok r) : labelInv r.1 := by
  unfold nmdJVal at h
  cases ha : orEmptyStrip a with
  | error e => rw [ha] at h; exact absurd h (by simp)
  | ok cn =>
    rw [ha] at h
    cases hb : orEmptyStrip b with
    | error e => rw [hb] at h; exact absurd h (by simp)
    | ok en =>
      rw [hb] at h
      injection h with h'
      rw [← h']
      exact nmdCore_inv _ _

theorem tryFieldMatches_inv : ∀ (ms : List (List Char)) (r : List Char × List Char),
    tryFieldMatches ms = some r → labelInv r.1 := by
  intro ms
  induction ms with
  | nil =>
    intro r h
    exact absurd h (by simp [tryFieldMatches])
  | cons m rest ih =>
    intro r h
    unfold tryFieldMatches at h
    split at h
    · split at h
      · split at h
        · split at h
          · injection h with h'
            rw [← h']
            exact nmdStr_inv _ _
          · exact ih r h
        · exact ih r h
      · exact ih r h
    · exact ih r h
    · exact ih r h

theorem parseFieldFormat_inv {t : List Char} {r : List Char × List Char}
    (h : _parse_field_format t = some r) : labelInv r.1 := by
  unfold _parse_field_format at h
  split at h
  · split at h
    · injection h with h'
      rw [← h']
      exact nmdStr_inv _ _
    · exact tryFieldMatches_inv _ r h
  · exact tryFieldMatches_inv _ r h

theorem tryCnEnMatches_inv : ∀ (ms : List (List Char)) (r : List Char × List Char),
    tryCnEnMatches ms = .ok (some r) → labelInv r.1 := by
  intro ms
  induction ms with
  | nil =>
    intro r h
    exact absurd h (by simp [tryCnEnMatches])
  | cons m rest ih =>
    intro r h
    unfold tryCnEnMatches at h
    split at h
    · rename_i fs hj
      split at h
      · cases hn : nmdJVal (jObjGet "domain_cn".data (.str []) fs)
            (jObjGet "domain_en".data (.str []) fs) with
        | error e => rw [hn] at h; exact absurd h (by simp [Except.map])
        | ok v =>
          rw [hn] at h
          simp only [Except.map] at h
          injection h with h'
          injection h' with h''
          rw [← h'']
          exact nmdJVal_inv hn
      · exact ih r h
    · exact ih r h
    · exact ih r h

theorem genericBrace_inv {w : List Char} {r : List Char × List Char}
    (h : genericBrace w = .ok (some r)) : labelInv r.1 := by
  unfold genericBrace at h
  split at h
  · exact absurd h (by simp)
  · split at h
    · exact absurd h (by simp)
    · rename_i fs hj
      split at h
      · split at h
        · exact absurd h (by simp)
        · rename_i cn hcn
          split at h
          · injection h with h'
            injection h' with h''
            rw [← h'']
            exact nmdStr_inv _ _
          · cases hn : nmdJVal (jObjGet "domain_cn".data (.str []) fs)
                (jObjGet "domain_en".data (.str []) fs) with
            | error e => rw [hn] at h; exact absurd h (by simp [Except.map])
            | ok v =>
              rw [hn] at h
              simp only [Except.map] at h
              injection h with h'
              injection h' with h''
              rw [← h'']
              exact nmdJVal_inv hn
      · cases hn : nmdJVal (jObjGet "domain_cn".data (.str []) fs)
            (jObjGet "domain_en".data (.str []) fs) with
        | error e => rw [hn] at h; exact absurd h (by simp [Except.map])
        | ok v =>
          rw [hn] at h
          simp only [Except.map] at h
          injection h with h'
          injection h' with h''
          rw [← h'']
          exact nmdJVal_inv hn
    · exact absurd h (by simp)

theorem _parse_inv {raw : List Char} {r : List Char × List Char}
    (h : _parse raw = .ok (some r)) : labelInv r.1 := by
  unfold _parse at h
  split_ifs at h
  · exact absurd h (by simp)
  · exact absurd h (by simp)
  · -- the pipe fallback fires
    split at h
    · rename_i r' hpf
      injection h with h'
      injection h' with h''
      rw [← h'']
      exact parseFieldFormat_inv hpf
    · split at h
      · exact absurd h (by simp)
      · rename_i r' hcn
        injection h with h'
        injection h' with h''
        rw [← h'']
        exact tryCnEnMatches_inv _ _ hcn
      · split at h
        · exact absurd h (by simp)
        · rename_i r' hgb
          injection h with h'
          injection h' with h''
          rw [← h'']
          exact genericBrace_inv hgb
        · injection h with h'
          injection h' with h''
          rw [← h'']
          exact nmdStr_inv _ _
  · -- no pipe: the final branch yields no result
    split at h
    · rename_i r' hpf
      injection h with h'
      injection h' with h''
      rw [← h'']
      exact parseFieldFormat_inv hpf
    · split at h
      · exact absurd h (by simp)
      · rename_i r' hcn
        injection h with h'
        injection h' with h''
        rw [← h'']
        exact tryCnEnMatches_inv _ _ hcn
      · split at h
        · exact absurd h (by simp)
        · rename_i r' hgb
          injection h with h'
          injection h' with h''
          rw [← h'']
          exact genericBrace_inv hgb
        · exact absurd h (by simp)

theorem _parse_ok_ne_nil {raw : List Char} {r : List Char × List Char}
    (h : _parse raw = .ok (some r)) : r.1 ≠ [] := by
  rcases _parse_inv h with h1 | h1
  · rw [h1]
    decide
  · exact h1.1

theorem bestEffortLabel_inv (raw raw2 : List Char) : labelInv (bestEffortLabel raw raw2).1 := by
  unfold bestEffortLabel
  split_ifs with h1
  · right
    refine ⟨?_, ?_, ?_⟩
    · intro he
      have he' : bestEffortCn raw raw2 = [] := he
      exact h1.1 (by simp [he'])
    · simpa using h1.2.2.1
    · simpa using h1.2.2.2
  · exact Or.inl rfl

theorem identifySecond_inv {raw raw2 : List Char} {r : List Char × List Char}
    (h : identifySecond raw raw2 = .ok r) : labelInv r.1 := by
  unfold identifySecond at h
  split at h
  · exact absurd h (by simp)
  · injection h with h'
    exact h' ▸ _parse_inv ‹_›
  · injection h with h'
    exact h' ▸ bestEffortLabel_inv raw raw2

/-! ## Claim theorems -/

/-- C1 (amended): every `ClassificationResult` that `identify_domain` returns
has a `domain_cn` that is either the sentinel `"未分类"` or a nonempty string
containing neither `<think>` nor `</think>` — for every pair of raw gateway
responses, across every parser strategy and the terminal best-effort
normalization.  (The claim's additional "at most 50 characters" bound fails:
it is enforced only by the strict field-JSON strategy, see the
counterexample.) -/
theorem c1_domain_cn_invariant (raw raw2 cn en : List Char)
    (h : identify_domain raw raw2 = .ok (cn, en)) :
    cn = uncategorized ∨
      (cn ≠ [] ∧ hasSub thinkOpen cn = false ∧ hasSub thinkClose cn = false) := by
  show labelInv cn
  unfold identify_domain at h
  split at h
  · exact absurd h (by simp)
  · rename_i r hp
    split at h
    · injection h with h'
      have hi : labelInv r.1 := _parse_inv hp
      rw [h'] at hi
      exact hi
    · exact identifySecond_inv h
  · exact identifySecond_inv h

/-- C1 witness: instantiating the invariant at the structured happy path
`'{"field": "免疫学"}'`. -/
theorem c1_domain_cn_invariant_witness :
    "免疫学".data = uncategorized ∨
      ("免疫学".data ≠ [] ∧ hasSub thinkOpen "免疫学".data = false ∧
        hasSub thinkClose "免疫学".data = false) :=
  c1_domain_cn_invariant "\x7b\"field\": \"免疫学\"\x7d".data "x".data
    "免疫学".data "免疫学".data rfl

/-- C1 counterexample: a field value of sixty `A`s is rejected by the strict
strategy's 50-character check but accepted, unbounded, by the noisy
field-JSON scan, so `identify_domain` returns a 60-character `domain_cn` —
refuting the claimed "at most 50 characters" bound. -/
theorem c1_counterexample :
    identify_domain ("\x7b\"field\": \"".data ++ List.replicate 60 'A' ++ "\"\x7d".data)
        "x".data
      = .ok (List.replicate 60 'A', List.replicate 60 'A') ∧
    50 < (List.replicate 60 'A').length :=
  ⟨rfl, by decide⟩

/-- C2 (amended): `identify_domain` follows the claimed retry flow except at
the second attempt, where any parsed result — including the Uncategorized
pair — is returned as is; only a wholly unparsable second response reaches
the terminal best-effort normalization of whichever raw response (second
preferred, else first) is non-empty, and the sentinel pair when none is.
The embedding takes the (at most two) gateway responses as parameters, so no
more than two gateway calls exist. -/
theorem c2_retry_policy_amended (raw raw2 : List Char) :
    identify_domain raw raw2 = amendedRetryPolicy raw raw2 := by
  have hsec : identifySecond raw raw2 = amendedSecondStage raw raw2 := by
    unfold identifySecond amendedSecondStage
    rfl
  cases hp : _parse raw with
  | error e => simp [identify_domain, amendedRetryPolicy, hp]
  | ok o =>
    cases o with
    | none =>
      simp [identify_domain, amendedRetryPolicy, hp]
      exact hsec
    | some r =>
      have hne : r.1 ≠ [] := _parse_ok_ne_nil hp
      have hne' : r.1.isEmpty = false := by
        simp [List.isEmpty_iff, hne]
      by_cases hu : r.1 = uncategorized
      · simp [identify_domain, amendedRetryPolicy, hp, hu, hne']
        exact hsec
      · simp [identify_domain, amendedRetryPolicy, hp, hu, hne']

/-- C2 counterexample: with an unparsable first response and a second response
parsing to the Uncategorized pair, the code returns that pair as is, while the
claimed policy (second-attempt Uncategorized label = failure → best-effort
normalization) would return the raw second response as the label. -/
theorem c2_counterexample :
    identify_domain "no structure here".data "\x7b\"field\": \"未分类\"\x7d".data
      = .ok (uncategorized, uncategorized) ∧
    claimedRetryPolicy "no structure here".data "\x7b\"field\": \"未分类\"\x7d".data
      = .ok ("\x7b\"field\": \"未分类\"\x7d".data, "\x7b\"field\": \"未分类\"\x7d".data) ∧
    ("\x7b\"field\": \"未分类\"\x7d".data : List Char) ≠ uncategorized :=
  ⟨rfl, rfl, by decide⟩

/-- C4: the claim (and spec) say no exception propagates out of the
classification call, but a gateway response whose JSON `field` value is not a
string — here `'{"field": 123}'` — reaches the generic brace parse, where
`(data.get("field") or "").strip()` raises `AttributeError`, which the
`except (json.JSONDecodeError, ValueError, KeyError)` clauses do not catch:
the exception escapes `identify_domain` before any second gateway call, for
every would-be second response. -/
theorem c4_attribute_error_escapes (raw2 : List Char) :
    identify_domain "\x7b\"field\": 123\x7d".data raw2 = .error .attributeError := by
  have hp : _parse "\x7b\"field\": 123\x7d".data = .error .attributeError := rfl
  unfold identify_domain
  rw [hp]

/-- C8: the shared truncation rule is idempotent at both its string-returning
embodiments — `_truncate` (ExcerptBuilder, `extractors.py`) and
`_truncate_for_context` (PromptAssembler, `llm_client.py`): truncating twice
with the same cap equals truncating once, for every string and every cap. -/
theorem c8_truncation_idempotent (s : List Char) (n : Int) :
    _truncate (_truncate s n) n = _truncate s n ∧
    _truncate_for_context (_truncate_for_context s n) n = _truncate_for_context s n := by
  constructor
  · by_cases hn : n ≤ 0
    · rw [_truncate_nonpos _ hn, _truncate_nonpos _ hn]
    · refine _truncate_eq_self (_truncate_stripped s n) ?_
      have := _truncate_length_le s n
      omega
  · by_cases hn : n ≤ 0
    · rw [_truncate_for_context_nonpos _ hn, _truncate_for_context_nonpos _ hn]
    · refine _truncate_for_context_eq_self (_truncate_for_context_stripped s n) ?_
      have := _truncate_for_context_length_le s n
      omega

theorem truncSearch_nil (t : List Char) (half : Int) : truncSearch t half [] = none := rfl

theorem truncSearch_cons (t : List Char) (half : Int) (sep : List Char)
    (rest : List (List Char)) :
    truncSearch t half (sep :: rest) =
      if rfind t sep > half then some ((rfind t sep).toNat + 1)
      else truncSearch t half rest := rfl

/-- First-match-wins search distributes over concatenated separator lists. -/
theorem truncSearch_append (t : List Char) (half : Int) (l1 l2 : List (List Char)) :
    truncSearch t half (l1 ++ l2) =
      match truncSearch t half l1 with
      | some k => some k
      | none => truncSearch t half l2 := by
  induction l1 with
  | nil => rw [List.nil_append, truncSearch_nil]
  | cons sep rest ih =>
    rw [List.cons_append, truncSearch_cons, truncSearch_cons]
    split_ifs with hc
    · rfl
    · exact ih

/-- C7 (amended): the ExcerptBuilder's `_truncate` and the PromptAssembler's
`_truncate_for_context` run the same past-the-midpoint backward search but
over different separator priority lists — `_truncate_for_context` additionally
tries the Chinese and Latin comma — so the two cuts coincide exactly on
strings containing no comma of either kind (the Chunker's in-loop search
differs further, see the counterexample). -/
theorem c7_truncation_agreement (s : List Char) (n : Int)
    (h1 : '，' ∉ s) (h2 : ',' ∉ s) :
    _truncate s n = _truncate_for_context s n := by
  unfold _truncate _truncate_for_context
  split_ifs with hg hlen
  · rfl
  · rfl
  · push_neg at hg
    have hn : 0 < n := by omega
    have ht1 : '，' ∉ (pyStrip s).take n.toNat :=
      fun hm => h1 (mem_of_mem_pyStrip ((List.take_sublist _ _).mem hm))
    have ht2 : ',' ∉ (pyStrip s).take n.toNat :=
      fun hm => h2 (mem_of_mem_pyStrip ((List.take_sublist _ _).mem hm))
    have e1 : rfind ((pyStrip s).take n.toNat) ['，'] = -1 := rfind_eq_neg_one_of_not_mem ht1
    have e2 : rfind ((pyStrip s).take n.toNat) [','] = -1 := rfind_eq_neg_one_of_not_mem ht2
    have hhalf : (0 : Int) ≤ n / 2 := by omega
    have hsplit : tfcSeps = exTruncSeps ++ [['，'], [',']] := rfl
    have hnone : truncSearch ((pyStrip s).take n.toNat) (n / 2) [['，'], [',']] = none := by
      unfold truncSearch
      rw [e1]
      rw [if_neg (by omega)]
      unfold truncSearch
      rw [e2]
      rw [if_neg (by omega)]
      rfl
    rw [hsplit, truncSearch_append, hnone]
    cases truncSearch ((pyStrip s).take n.toNat) (n / 2) exTruncSeps with
    | none => rfl
    | some k => rfl

/-- C7 witness: the two truncations agree on a concrete comma-free string. -/
theorem c7_truncation_agreement_witness :
    _truncate "ab cd efgh".data 7 = _truncate_for_context "ab cd efgh".data 7 :=
  c7_truncation_agreement "ab cd efgh".data 7 (by decide) (by decide)

/-- C7 counterexample: the three call sites do not share one behaviour.  On
`"abcde，fgh"` with cap 8, `_truncate` (no comma separator) hard-cuts while
`_truncate_for_context` cuts after the Chinese comma; and on
`"abcdefg\n\nhi\nXYZ"` with window 12 the Chunker's in-loop search cuts after
the paragraph break (emitting `"abcdefg"`) while `_truncate` cuts after the
last newline (`"abcdefg\n\nhi"`). -/
theorem c7_counterexample :
    _truncate "abcde，fgh".data 8 ≠ _truncate_for_context "abcde，fgh".data 8 ∧
    chunkStep "abcdefg\n\nhi\nXYZ".data 12 0 0 = .inr (9, some "abcdefg".data) ∧
    "abcdefg".data ≠ _truncate "abcdefg\n\nhi\nXYZ".data 12 :=
  ⟨by decide, by decide, by decide⟩

/-- C3 (amended): whenever the budget covers the fixed overhead —
`len(system prompt) + len(fixed prefix with title) ≤ max_prompt_chars` — the
assembled prompt respects the budget: the system prompt plus the user prompt
(prefix plus pre-truncated content) never exceed `max_prompt_chars`.  The
unrestricted claim fails: when the budget is below the overhead the prefix is
emitted whole regardless, see the counterexample. -/
theorem c3_prompt_budget_amended (sysMsg domainsStr titleS contentS : List Char) (cap : Int)
    (h : (sysMsg.length : Int) + ((fixedPrefixWithTitle domainsStr titleS).length : Int) ≤ cap) :
    (sysMsg.length : Int) +
        ((assembledUserPrompt sysMsg domainsStr titleS contentS cap).length : Int) ≤ cap := by
  unfold assembledUserPrompt
  rw [List.length_append]
  have hX : (0 : Int) ≤ cap - (sysMsg.length : Int) -
      ((fixedPrefixWithTitle domainsStr titleS).length : Int) := by omega
  have hl := _truncate_for_context_length_le contentS
    (max 0 (cap - (sysMsg.length : Int) -
      ((fixedPrefixWithTitle domainsStr titleS).length : Int)))
  have hfact : ((max 0 (cap - (sysMsg.length : Int) -
      ((fixedPrefixWithTitle domainsStr titleS).length : Int))).toNat : Int) =
      cap - (sysMsg.length : Int) -
        ((fixedPrefixWithTitle domainsStr titleS).length : Int) := by
    rw [max_eq_right hX]
    exact Int.toNat_of_nonneg hX
  omega

set_option maxRecDepth 4000 in
/-- C3 witness: the amended budget bound at a concrete small vocabulary,
title and content with the default 4096 cap. -/
theorem c3_prompt_budget_amended_witness :
    ("S".data.length : Int) +
        ((assembledUserPrompt "S".data "X".data "T".data
          (List.replicate 200 'C') 4096).length : Int) ≤ 4096 :=
  c3_prompt_budget_amended "S".data "X".data "T".data (List.replicate 200 'C') 4096
    (by decide)

set_option maxRecDepth 8000 in
/-- C3 counterexample: with `max_prompt_chars = 1`, a one-character system
prompt and a one-entry vocabulary, the assembled prompt still contains the
whole fixed prefix, so `len(system) + len(user prompt)` exceeds the budget —
refuting the claim for caps below the fixed overhead. -/
theorem c3_counterexample :
    ¬ ((((identifyDomainPrompt "T".data (List.replicate 100 'C') (some "S".data)
          (some ["X".data]) (some 1)).1).length : Int) +
        (((identifyDomainPrompt "T".data (List.replicate 100 'C') (some "S".data)
          (some ["X".data]) (some 1)).2).length : Int) ≤ 1) := by
  decide

theorem chunkLoop_succ (text : List Char) (cs ov : Int) (n : Nat) (start : Int)
    (acc : List (List Char)) :
    chunkLoop text cs ov (n + 1) start acc =
      if start < (text.length : Int) then
        match chunkStep text cs ov start with
        | .inl last => some (acc ++ last.toList)
        | .inr (s', em) => chunkLoop text cs ov n s' (acc ++ em.toList)
      else some acc := rfl

/-- C5: `chunk_text` does **not** always make forward progress.  On the input
`"aaaaa\n" + "b"*20` with `chunk_size = 8` and `overlap = 100` the boundary
cut lands at 6, so `start` advances to `6 − min(100, 7) = −1` — strictly
backwards — and the loop cycles `0 → −1 → 0` forever (the `start = −1` window
is the empty Python slice `text[-1:7]`, emitting nothing): the loop never
finishes within any fuel, i.e. the Python `while` loop runs forever, emitting
`"aaaaa"` on every other iteration.  This refutes the claimed strict increase
of `start` and the claimed termination for every `overlap ≥ chunk_size`. -/
theorem c5_chunk_text_nonterminating :
    chunkStep ("aaaaa\n".data ++ List.replicate 20 'b') 8 100 0
      = .inr (-1, some "aaaaa".data) ∧
    chunkStep ("aaaaa\n".data ++ List.replicate 20 'b') 8 100 (-1)
      = .inr (0, none) ∧
    ∀ fuel : Nat, chunk_text ("aaaaa\n".data ++ List.replicate 20 'b') 8 100 fuel = none := by
  have h0 : chunkStep ("aaaaa\n".data ++ List.replicate 20 'b') 8 100 0
      = .inr (-1, some "aaaaa".data) := by decide
  have h1 : chunkStep ("aaaaa\n".data ++ List.replicate 20 'b') 8 100 (-1)
      = .inr (0, none) := by decide
  refine ⟨h0, h1, ?_⟩
  intro fuel
  have key : ∀ f : Nat, ∀ acc : List (List Char),
      chunkLoop ("aaaaa\n".data ++ List.replicate 20 'b') 8 100 f 0 acc = none ∧
      chunkLoop ("aaaaa\n".data ++ List.replicate 20 'b') 8 100 f (-1) acc = none := by
    intro f
    induction f with
    | zero => intro acc; exact ⟨rfl, rfl⟩
    | succ n ih =>
      intro acc
      constructor
      · rw [chunkLoop_succ,
          if_pos (by decide :
            (0 : Int) < (("aaaaa\n".data ++ List.replicate 20 'b').length : Int)),
          h0]
        exact (ih _).2
      · rw [chunkLoop_succ,
          if_pos (by decide :
            (-1 : Int) < (("aaaaa\n".data ++ List.replicate 20 'b').length : Int)),
          h1]
        exact (ih _).1
  unfold chunk_text
  rw [if_neg (by decide), if_neg (by decide)]
  have hstrip : pyStrip ("aaaaa\n".data ++ List.replicate 20 'b')
      = "aaaaa\n".data ++ List.replicate 20 'b' := by decide
  rw [hstrip]
  exact (key fuel []).1

/-- The title computation (lines 192–200) is the first component of
`_extract_title_author_affiliation_abstract`. -/
theorem extract_title_fst (fullText filename : List Char) :
    (_extract_title_author_affiliation_abstract fullText filename).1 =
      if ¬ (titleLinesGo ((nonEmptyLines (pyStrip fullText)).take 4) 0).isEmpty then
        _truncate (List.intercalate [' ']
          (titleLinesGo ((nonEmptyLines (pyStrip fullText)).take 4) 0)) TITLE_MAX_CHARS
      else filename := rfl

theorem titleLinesGo_none (ls : List (List Char)) :
    ∀ i : Nat, (∀ l ∈ ls, titleQualifies l = false) → titleLinesGo ls i = [] := by
  induction ls with
  | nil => intro i _; rfl
  | cons a rest ih =>
    intro i h
    unfold titleLinesGo
    rw [if_neg (by simp [h a (List.mem_cons_self a rest)])]
    exact ih (i + 1) (fun l hl => h l (List.mem_cons_of_mem a hl))

/-- C6 (amended): the title scan accepts a line only if it is longer than 10
characters and not URL-like, but the stop test is on the *enumeration index*
`i ≥ 1`, not on a count of qualifying lines.  Hence: from index 1 on, the
scan keeps exactly the first qualifying line it meets (one line, not two);
two lines are accumulated exactly when the very first non-empty line
qualifies with length ≤ 80 (a longer qualifying first line is kept alone);
and when no line among the first four qualifies, the title falls back to the
filename. -/
theorem c6_title_scan_amended :
    (∀ (ls : List (List Char)) (i : Nat), 1 ≤ i →
      titleLinesGo ls i = (ls.find? titleQualifies).toList) ∧
    (∀ (a : List Char) (ls : List (List Char)), titleQualifies a = true → a.length ≤ 80 →
      titleLinesGo (a :: ls) 0 = a :: (ls.find? titleQualifies).toList) ∧
    (∀ (a : List Char) (ls : List (List Char)), titleQualifies a = true → 80 < a.length →
      titleLinesGo (a :: ls) 0 = [a]) ∧
    (∀ (a : List Char) (ls : List (List Char)), titleQualifies a = false →
      titleLinesGo (a :: ls) 0 = (ls.find? titleQualifies).toList) ∧
    (∀ fullText filename : List Char,
      (∀ l ∈ (nonEmptyLines (pyStrip fullText)).take 4, titleQualifies l = false) →
      (_extract_title_author_affiliation_abstract fullText filename).1 = filename) := by
  have hge : ∀ (ls : List (List Char)) (i : Nat), 1 ≤ i →
      titleLinesGo ls i = (ls.find? titleQualifies).toList := by
    intro ls
    induction ls with
    | nil => intro i _; rfl
    | cons a rest ih =>
      intro i hi
      unfold titleLinesGo
      by_cases hq : titleQualifies a = true
      · rw [if_pos hq, if_pos (Or.inl hi), List.find?_cons_of_pos rest hq]
        rfl
      · rw [if_neg hq, List.find?_cons_of_neg rest hq]
        exact ih (i + 1) (by omega)
  refine ⟨hge, ?_, ?_, ?_, ?_⟩
  · intro a ls hq hlen
    unfold titleLinesGo
    rw [if_pos hq, if_neg (by omega : ¬ ((0 : Nat) ≥ 1 ∨ a.length > 80)),
      hge ls 1 le_rfl]
  · intro a ls hq hlen
    unfold titleLinesGo
    rw [if_pos hq, if_pos (Or.inr hlen)]
  · intro a ls hq
    unfold titleLinesGo
    rw [if_neg (by simp [hq]), hge ls 1 le_rfl]
  · intro fullText filename h
    rw [extract_title_fst]
    rw [if_neg (by simp [titleLinesGo_none _ 0 h])]

/-- C6 witness: a whitespace-only body (no qualifying line at all) falls back
to the filename, instantiating the amended theorem's fallback clause. -/
theorem c6_title_scan_amended_witness :
    (_extract_title_author_affiliation_abstract "   \n  ".data "file.pdf".data).1
      = "file.pdf".data :=
  c6_title_scan_amended.2.2.2.2 "   \n  ".data "file.pdf".data (by decide)

/-- C6 counterexample: the first four non-empty lines are a short line
followed by two qualifying lines of length ≤ 80; the claim says two
qualifying lines are consumed, but the scan breaks right after the first one
(its index is 1 ≥ 1), so the title is that single line. -/
theorem c6_counterexample :
    titleQualifies "short".data = false ∧
    titleQualifies "This is a long qualifying line".data = true ∧
    titleQualifies "Another long qualifying line here".data = true ∧
    "This is a long qualifying line".data.length ≤ 80 ∧
    titleLinesGo ["short".data, "This is a long qualifying line".data,
        "Another long qualifying line here".data] 0
      = ["This is a long qualifying line".data] ∧
    (_extract_title_author_affiliation_abstract
        "short\nThis is a long qualifying line\nAnother long qualifying line here".data
        "f.pdf".data).1
      = "This is a long qualifying line".data := by
  refine ⟨by decide, by decide, by decide, by decide, by decide, by decide⟩

/-- C9: for every file path whose lowercased suffix is not `".pdf"`,
`extract_title_abstract_body` returns `(filename, "", "")` without consulting
the text source at all — the result is the same for every `pdfText` the
collaborator could have produced — even though the scanner's default
configuration also collects `.docx`, `.doc` and `.txt` files, which therefore
always reach classification with an empty excerpt. -/
theorem c9_non_pdf_short_circuit (pdfText filePath : List Char) (maxChars : Int)
    (h : lowerAscii (pathSuffix filePath) ≠ ".pdf".data) :
    extract_title_abstract_body pdfText filePath maxChars = (pathName filePath, [], []) ∧
    ".docx".data ∈ defaultExtensions ∧ ".doc".data ∈ defaultExtensions ∧
    ".txt".data ∈ defaultExtensions := by
  refine ⟨?_, by decide, by decide, by decide⟩
  unfold extract_title_abstract_body
  rw [if_pos h]

/-- C9 witness: a `.docx` file yields its bare filename and an empty excerpt,
for a concrete nonempty would-be extracted text. -/
theorem c9_non_pdf_short_circuit_witness :
    extract_title_abstract_body "Some extracted text".data "papers/study.docx".data 1500
      = ("study.docx".data, [], []) := by
  have h := (c9_non_pdf_short_circuit "Some extracted text".data "papers/study.docx".data 1500
    (by decide)).1
  rw [h]
  decide

theorem mem_of_mem_pyStripSet {a : Char} {set s : List Char}
    (h : a ∈ pyStripSet set s) : a ∈ s := by
  unfold pyStripSet at h
  have h1 : (List.dropWhile (· ∈ set) s).Sublist s := List.dropWhile_sublist _
  have h2 : (List.dropWhile (· ∈ set) (List.dropWhile (· ∈ set) s).reverse).Sublist
      (List.dropWhile (· ∈ set) s).reverse := List.dropWhile_sublist _
  have h3 := h2.reverse
  simp only [List.reverse_reverse] at h3
  exact (h3.trans h1).mem h

theorem mem_of_mem_chopCategory {a : Char} {s : List Char}
    (h : a ∈ chopCategory s) : a ∈ s := by
  unfold chopCategory at h
  split at h
  · exact ((List.dropWhile_sublist _).trans (List.drop_sublist _ _)).mem h
  · exact h

theorem splitSeps_subset : ∀ (cs : List Char) (s : List Char) (a : Char),
    a ∈ splitSeps cs s → a ∈ s := by
  intro cs
  induction cs with
  | nil => intro s a h; exact h
  | cons c rest ih =>
    intro s a h
    unfold splitSeps at h
    have h2 := ih _ a h
    split at h2
    · exact ((List.takeWhile_prefix _).sublist).mem (mem_of_mem_pyStrip h2)
    · exact h2

theorem splitSeps_not_mem : ∀ (cs : List Char) (s : List Char) (c : Char),
    c ∈ cs → c ∉ splitSeps cs s := by
  intro cs
  induction cs with
  | nil => intro s c h; exact absurd h (by simp)
  | cons d rest ih =>
    intro s c hc hmem
    rcases List.mem_cons.mp hc with hcd | hcr
    · subst hcd
      have h2 := splitSeps_subset rest _ c hmem
      split at h2
      · have := List.mem_takeWhile_imp (mem_of_mem_pyStrip h2)
        simp at this
      · exact ‹¬ c ∈ s› h2
    · exact ih _ c hcr hmem

theorem _normalize_domain_no_separators (s : List Char) (c : Char) (hc : c ∈ ndSepChars) :
    c ∉ _normalize_domain s := by
  unfold _normalize_domain
  split_ifs with h1 h2
  · fin_cases hc <;> decide
  · fin_cases hc <;> decide
  · intro hmem
    exact splitSeps_not_mem ndSepChars (pyStrip s) c hc
      (splitSeps_subset [] _ c (mem_of_mem_chopCategory (mem_of_mem_pyStripSet hmem)))

/-- C10: label normalization splits on separators even for successfully
parsed structured output — the result of `_normalize_domain` never contains a
newline, a Chinese or Latin comma, or a Chinese or Latin full stop (it also
strips leading category-word markers and surrounding quotes); concretely, the
valid JSON response `'{"field": "分子生物学，细胞生物学"}'` yields the
`domain_cn` `"分子生物学"` — only the segment before the first separator. -/
theorem c10_separator_splitting :
    (∀ (s : List Char) (c : Char), c ∈ ndSepChars → c ∉ _normalize_domain s) ∧
    identify_domain "\x7b\"field\": \"分子生物学，细胞生物学\"\x7d".data "x".data
      = .ok ("分子生物学".data, "分子生物学，细胞生物学".data) :=
  ⟨fun s c hc => _normalize_domain_no_separators s c hc, rfl⟩

/-- C10 witness: the Chinese comma is absent from the normalization of the
example label. -/
theorem c10_separator_splitting_witness :
    '，' ∉ _normalize_domain "分子生物学，细胞生物学".data :=
  c10_separator_splitting.1 "分子生物学，细胞生物学".data '，' (by decide)

example : pyStrip " ab c\n".data = "ab c".data := by decide
example : rfind "abcabc".data "bc".data = 4 := by decide
example : rfind "abc".data [] = 3 := by decide
example : rfind "abc".data "x".data = -1 := by decide
example : findSub "abcabc".data "bc".data = 1 := by decide
example : pySlice "abcdef".data (-2) 6 = "ef".data := by decide
example : pySlice "abcdef".data (-1) 3 = [] := by decide
example : beforeFirst ",".data "a,b,c".data = "a".data := by decide
example : afterLast "|".data "a|b|c".data = "c".data := by decide

end DomainDetails
